import Mathlib

/-!
Verification of the Reclaim zkSnark Solidity SDK core against its
natural-language specification.

The repository ships only the TypeScript test-suite, the hardhat
configuration and the integration readme; the Solidity core itself
(`Reclaim.sol`) is not part of the sources.  Every operation of the core
is therefore modelled from the specification (witness/epoch lifecycle,
claim verification, merkelization, dapp registry, membership gate) as a
shallow embedding: global ledger state is an explicit `State` record,
each public operation is a total function `State → ... → Except ReclaimError State`,
and ledger atomicity is the statement that a failing operation returns
the untouched pre-state.  External collaborators (keccak-style hashing,
ECDSA-style signature recovery, the semaphore membership system, the
wall clock) are modelled as explicit executable stand-ins, each marked
in its doc comment.
-/

namespace Reclaim

/-- An attestor identity: public identity (address) plus network endpoint,
with the field names used by the repository's test-suite. -/
structure Witness where
  addr : Nat
  host : String
deriving DecidableEq

/-- Modelled from the spec: an epoch is an id (monotonic, starting at 1),
a wall-clock start time, an ordered witness panel and a signature
threshold.  Field names follow the test-suite (`epoch.id`,
`epoch.timestampStart`, `epoch.witnesses`,
`epoch.minimumWitnessesForClaimCreation`). -/
structure Epoch where
  id : Nat
  timestampStart : Nat
  witnesses : List Witness
  minimumWitnessesForClaimCreation : Nat
deriving DecidableEq

/-- Claim metadata: provider, parameters and a context string whose first
42 characters encode a hex address. -/
structure ClaimInfo where
  provider : String
  parameters : String
  context : String
deriving DecidableEq

/-- Modelled from the spec: an external signature blob.  The external
signature-recovery primitive (§6 collaborator (b)) is abstracted: a blob
is either malformed, or a signature by `signer` over message hash
`hash`. -/
inductive Sig where
  | malformed : Sig
  | signedBy (signer : Nat) (hash : Nat) : Sig
deriving DecidableEq

/-- The core data of a signed claim: identifier, owner address,
timestamp and epoch id (shape of the crypto SDK's `CompleteClaimData`). -/
structure CompleteClaimData where
  identifier : Nat
  owner : Nat
  timestampS : Nat
  epochId : Nat
deriving DecidableEq

/-- A claim plus its witness signatures. -/
structure SignedClaim where
  claim : CompleteClaimData
  signatures : List Sig
deriving DecidableEq

/-- A Reclaim proof object: claim metadata plus the signed claim. -/
structure Proof where
  claimInfo : ClaimInfo
  signedClaim : SignedClaim
deriving DecidableEq

/-- An anonymity group as recorded in the external membership system:
group id, the provider it was derived from, its Merkle depth, and the
admin identity registered for it. -/
structure Group where
  id : Nat
  provider : String
  depth : Nat
  admin : Nat
deriving DecidableEq

/-- A registered dapp: assigned id, caller-supplied uniqueness token and
creator identity. -/
structure Dapp where
  dappId : Nat
  externalNullifier : Nat
  creator : Nat
deriving DecidableEq

/-- Modelled from the spec: a zero-knowledge membership proof object.
Generation and cryptographic checking are external (§6 collaborator
(a)); the external verifier's verdict is abstracted as the `ok` field. -/
structure ZkProof where
  ok : Bool
deriving DecidableEq

/-- The error kinds of §7 of the specification. -/
inductive ReclaimError where
  | NotOwner
  | InvalidEpochParameters
  | EpochNotFound
  | GroupAlreadyExists
  | GroupNotFound
  | NoSignatures
  | SignatureCountMismatch
  | InvalidSignature
  | WitnessSetMismatch
  | UserAlreadyMerkelized
  | DappAlreadyExists
  | DappNotCreated
  | InvalidProof
  | ContextTooShort
deriving DecidableEq

/-- Records emitted by successful transitions (§6). -/
inductive Rec where
  | epochAdded (id : Nat)
  | groupCreated (groupId : Nat) (provider : String)
  | memberEnrolled (groupId commitment owner : Nat) (provider : String)
  | dappCreated (dappId : Nat)
  | proofVerified (groupId merkleTreeRoot nullifierHash externalNullifier signal : Nat)
deriving DecidableEq

/-- The process-wide ledger state: epoch table, group table,
merkelization-record set, dapp table, the log of emitted records, the
privileged operator identity and the core contract's own identity. -/
structure State where
  epochs : List Epoch
  groups : List Group
  merkelized : List (Nat × String)
  dapps : List Dapp
  records : List Rec
  operator : Nat
  selfAddr : Nat
deriving DecidableEq

/-- The empty initial ledger state. -/
def initState (operator selfAddr : Nat) : State :=
  { epochs := [], groups := [], merkelized := [], dapps := [], records := [],
    operator := operator, selfAddr := selfAddr }

/-! ## Hash model

The core consumes an external collision-resistant hash (§6 collaborator
(c)).  It is modelled as an injective positional encoding of the input
characters: every character contributes one base-`4294967297` digit, so
distinct strings encode to distinct numbers — the idealisation of the
spec's "effectively collision-resistant" keccak256. -/

/-- Modelled from the spec: digit-wise encoding of a character list, one
base-`4294967297` digit (the character's code point plus one) per
character. -/
def encodeChars : List Char → Nat
  | [] => 0
  | c :: cs => (c.val.toNat + 1) + 4294967297 * encodeChars cs

/-- Modelled from the spec: the collision-resistant hash of a string,
idealised as the injective encoding of its characters. -/
def encodeString (s : String) : Nat :=
  encodeChars s.data

/-- Modelled from the spec and the readme's
`calculateGroupIdFromProvider`: `groupId = truncate(hash(provider))`.
The readme takes all 32 bytes of the keccak digest, so no information is
discarded; the keccak digest is idealised as the injective
`encodeString`. -/
def calculateGroupIdFromProvider (provider : String) : Nat :=
  encodeString provider

/-- Each digit of `encodeChars` is positive. -/
theorem encodeChars_pos (c : Char) (cs : List Char) :
    0 < encodeChars (c :: cs) := by
  have : 0 < c.val.toNat + 1 := Nat.succ_pos _
  calc 0 < c.val.toNat + 1 := this
    _ ≤ (c.val.toNat + 1) + 4294967297 * encodeChars cs := Nat.le_add_right _ _

/-- A character code point fits in 32 bits, so each digit is below the
base. -/
theorem char_digit_lt (c : Char) : c.val.toNat + 1 < 4294967297 := by
  have h : c.val.toNat < 4294967296 := c.val.toNat_lt
  omega

/-- Characters with equal code points are equal. -/
theorem char_eq_of_code_eq {c d : Char} (h : c.val.toNat = d.val.toNat) : c = d := by
  apply Char.ext
  exact UInt32.eq_of_val_eq (Fin.ext h)

/-- The character encoding is injective. -/
theorem encodeChars_inj : ∀ l₁ l₂, encodeChars l₁ = encodeChars l₂ → l₁ = l₂ := by
  intro l₁
  induction l₁ with
  | nil =>
    intro l₂ h
    cases l₂ with
    | nil => rfl
    | cons d ds =>
      exfalso
      have hp := encodeChars_pos d ds
      simp only [encodeChars] at h
      omega
  | cons c cs ih =>
    intro l₂ h
    cases l₂ with
    | nil =>
      exfalso
      have hp := encodeChars_pos c cs
      simp only [encodeChars] at h
      omega
    | cons d ds =>
      simp only [encodeChars] at h
      have hc := char_digit_lt c
      have hd := char_digit_lt d
      have hmodc : ((c.val.toNat + 1) + 4294967297 * encodeChars cs) % 4294967297
          = c.val.toNat + 1 := by
        rw [Nat.add_mul_mod_self_left]
        exact Nat.mod_eq_of_lt hc
      have hmodd : ((d.val.toNat + 1) + 4294967297 * encodeChars ds) % 4294967297
          = d.val.toNat + 1 := by
        rw [Nat.add_mul_mod_self_left]
        exact Nat.mod_eq_of_lt hd
      have hdig : c.val.toNat + 1 = d.val.toNat + 1 := by
        rw [← hmodc, ← hmodd, h]
      have hrest : encodeChars cs = encodeChars ds := by
        have h' : 4294967297 * encodeChars cs = 4294967297 * encodeChars ds := by omega
        exact Nat.eq_of_mul_eq_mul_left (by norm_num) h'
      have hchar : c = d := char_eq_of_code_eq (by omega)
      rw [hchar, ih ds hrest]

/-- The string hash model is injective: the idealisation of the spec's
collision resistance. -/
theorem encodeString_inj {s t : String} (h : encodeString s = encodeString t) : s = t := by
  apply String.ext
  exact encodeChars_inj _ _ h

/-! ## Deterministic witness selection (§4.1)

The spec pins a pure sampling-without-replacement construction: hash
`(identifier, timestampS, epoch.id)` into a seed, then repeatedly consume
seed words to pick an index into the shrinking remaining-witness
population, removing each picked witness before the next draw.  §9
leaves the exact seed byte layout open; the model pins one concrete
layout (`seedOf`/`seedWord`) and the swap-remove population update, and
uses the same pinned layout for both the contract-side function and the
crypto-SDK reference function, as the cross-implementation contract
demands. -/

/-- Modelled from the spec: the seed derived by hashing
`(identifier, timestampS, epoch.id)`; the hash is abstracted as a
deterministic polynomial mix of the three inputs. -/
def seedOf (identifier timestampS epochId : Nat) : Nat :=
  (identifier * 1000003 + timestampS) * 1000003 + epochId

/-- Modelled from the spec: the `step`-th pseudo-random word consumed
from the seed stream. -/
def seedWord (seed step : Nat) : Nat :=
  (seed + (step + 1) * 11400714819323198485) % 18446744073709551616

/-- Remove the element at `idx` from the population by moving the last
element into its slot and shrinking the list by one (the spec's
"removing each picked witness from the population"). -/
def swapRemove (pool : List Witness) (idx : Nat) : List Witness :=
  match pool.getLast? with
  | none => []
  | some last => (pool.set idx last).dropLast

/-- One draw per step: pick the witness at `seedWord seed step mod |pool|`,
then recurse on the shrunken population. -/
def selectLoop (seed : Nat) : Nat → Nat → List Witness → List Witness
  | 0, _, _ => []
  | k + 1, step, pool =>
    match pool.get? (seedWord seed step % pool.length) with
    | none => []
    | some w => w :: selectLoop seed k (step + 1) (swapRemove pool (seedWord seed step % pool.length))

/-- Modelled from the spec: `selectWitnessesForClaim(epoch, identifier,
timestampS)` — the contract-side pure sampling function. -/
def selectWitnessesForClaim (epoch : Epoch) (identifier timestampS : Nat) : List Witness :=
  selectLoop (seedOf identifier timestampS epoch.id)
    epoch.minimumWitnessesForClaimCreation 0 epoch.witnesses

/-- Modelled from the spec: the crypto SDK's independent reference
implementation `fetchWitnessListForClaim`, written in the SDK's
imperative style as a left fold over the draw steps, carrying the
remaining population and the selected accumulator. -/
def fetchWitnessListForClaim (epoch : Epoch) (identifier timestampS : Nat) : List Witness :=
  let seed := seedOf identifier timestampS epoch.id
  let out := (List.range epoch.minimumWitnessesForClaimCreation).foldl
    (fun (acc : List Witness × List Witness) step =>
      match acc.1.get? (seedWord seed step % acc.1.length) with
      | none => acc
      | some w => (swapRemove acc.1 (seedWord seed step % acc.1.length), acc.2 ++ [w]))
    (epoch.witnesses, [])
  out.2

/-- Swap-removal shrinks a non-empty population by exactly one. -/
theorem swapRemove_length (pool : List Witness) (idx : Nat) (h : pool ≠ []) :
    (swapRemove pool idx).length = pool.length - 1 := by
  obtain ⟨last, hlast⟩ : ∃ x, pool.getLast? = some x := by
    cases hl : pool.getLast? with
    | none => exact absurd (List.getLast?_eq_none_iff.mp hl) h
    | some x => exact ⟨x, rfl⟩
  simp [swapRemove, hlast, List.length_dropLast, List.length_set]

/-- As long as the requested count fits in the population, the selection
loop returns exactly that many witnesses. -/
theorem selectLoop_length (seed : Nat) :
    ∀ (k step : Nat) (pool : List Witness), k ≤ pool.length →
      (selectLoop seed k step pool).length = k := by
  intro k
  induction k with
  | zero => intro step pool _; rfl
  | succ k ih =>
    intro step pool hk
    have hpos : 0 < pool.length := Nat.lt_of_lt_of_le (Nat.succ_pos k) hk
    have hne : pool ≠ [] := List.ne_nil_of_length_pos hpos
    have hidx : seedWord seed step % pool.length < pool.length := Nat.mod_lt _ hpos
    have hget : pool.get? (seedWord seed step % pool.length)
        = some (pool.get ⟨seedWord seed step % pool.length, hidx⟩) :=
      List.get?_eq_get hidx
    have hrem : (swapRemove pool (seedWord seed step % pool.length)).length
        = pool.length - 1 := swapRemove_length pool _ hne
    have hk' : k ≤ (swapRemove pool (seedWord seed step % pool.length)).length := by
      rw [hrem]; omega
    simp only [selectLoop, hget, List.length_cons, ih (step + 1) _ hk']

/-- A draw step on an empty population is a no-op of the fold
accumulator. -/
theorem foldl_empty_pool (seed : Nat) (steps : List Nat) (sel : List Witness) :
    steps.foldl
      (fun (acc : List Witness × List Witness) step =>
        match acc.1.get? (seedWord seed step % acc.1.length) with
        | none => acc
        | some w => (swapRemove acc.1 (seedWord seed step % acc.1.length), acc.2 ++ [w]))
      (([] : List Witness), sel) = ([], sel) := by
  induction steps with
  | nil => rfl
  | cons s rest ih => simpa [List.get?] using ih

/-- The fold formulation of the reference implementation agrees with the
recursive selection loop, for every start step and accumulator. -/
theorem foldl_eq_selectLoop (seed : Nat) :
    ∀ (k step : Nat) (pool sel : List Witness),
      ((List.range' step k).foldl
        (fun (acc : List Witness × List Witness) st =>
          match acc.1.get? (seedWord seed st % acc.1.length) with
          | none => acc
          | some w => (swapRemove acc.1 (seedWord seed st % acc.1.length), acc.2 ++ [w]))
        (pool, sel)).2 = sel ++ selectLoop seed k step pool := by
  intro k
  induction k with
  | zero => intro step pool sel; simp [List.range', selectLoop]
  | succ k ih =>
    intro step pool sel
    rw [List.range'_succ]
    cases hget : pool.get? (seedWord seed step % pool.length) with
    | none =>
      have hpool : pool = [] := by
        cases pool with
        | nil => rfl
        | cons p ps =>
          exfalso
          have hpos : 0 < (p :: ps).length := Nat.succ_pos _
          have hidx : seedWord seed step % (p :: ps).length < (p :: ps).length :=
            Nat.mod_lt _ hpos
          rw [List.get?_eq_get hidx] at hget
          exact Option.noConfusion hget
      subst hpool
      simp only [List.foldl_cons, hget]
      rw [foldl_empty_pool]
      simp [selectLoop, List.get?]
    | some w =>
      have hget' : pool[seedWord seed step % pool.length]? = some w := by
        simpa [List.get?_eq_getElem?] using hget
      simp only [List.foldl_cons, hget]
      rw [ih (step + 1) _ (sel ++ [w])]
      simp [selectLoop, hget', List.append_assoc]

/-- The reference implementation coincides with the contract-side
selection function on every input. -/
theorem fetchWitnessListForClaim_eq (epoch : Epoch) (identifier timestampS : Nat) :
    fetchWitnessListForClaim epoch identifier timestampS
      = selectWitnessesForClaim epoch identifier timestampS := by
  unfold fetchWitnessListForClaim selectWitnessesForClaim
  rw [List.range_eq_range']
  rw [foldl_eq_selectLoop]
  simp

/-! ## EpochManager (§4.1) -/

/-- Linear search of the epoch table by epoch id. -/
def findEpoch : List Epoch → Nat → Option Epoch
  | [], _ => none
  | e :: rest, i => if e.id = i then some e else findEpoch rest i

/-- The most recently added epoch, if any. -/
def lastEpoch : List Epoch → Option Epoch
  | [] => none
  | [e] => some e
  | _ :: e :: rest => lastEpoch (e :: rest)

/-- Modelled from the spec: `fetchEpoch(id)` — id `0` returns the current
(latest) epoch, any other id returns the exact epoch or fails
`EpochNotFound`. -/
def fetchEpoch (st : State) (epochId : Nat) : Except ReclaimError Epoch :=
  if epochId = 0 then
    match lastEpoch st.epochs with
    | some e => .ok e
    | none => .error .EpochNotFound
  else
    match findEpoch st.epochs epochId with
    | some e => .ok e
    | none => .error .EpochNotFound

/-- Modelled from the spec: `addEpoch(witnesses, threshold)` —
operator-only; validates the panel, assigns the next sequential id,
records the wall-clock start time (`now`, the external time source) and
stores the panel verbatim. -/
def addEpoch (st : State) (caller : Nat) (ws : List Witness) (threshold : Nat)
    (now : Nat) : Except ReclaimError State :=
  if caller ≠ st.operator then .error .NotOwner
  else if ws.isEmpty ∨ threshold = 0 ∨ ws.length < threshold then
    .error .InvalidEpochParameters
  else
    let newId := st.epochs.length + 1
    .ok { st with
      epochs := st.epochs ++ [{ id := newId, timestampStart := now,
                                witnesses := ws,
                                minimumWitnessesForClaimCreation := threshold }],
      records := st.records ++ [.epochAdded newId] }

/-- Modelled from the spec: the open query `fetchWitnessesForClaim
(epochId, identifier, timestampS)` — fetch the epoch and run the pure
selection on it. -/
def fetchWitnessesForClaim (st : State) (epochId identifier timestampS : Nat) :
    Except ReclaimError (List Witness) :=
  match fetchEpoch st epochId with
  | .error e => .error e
  | .ok epoch => .ok (selectWitnessesForClaim epoch identifier timestampS)

/-! ## ClaimVerifier (§4.2) -/

/-- Modelled from the spec: `computeIdentifier(claimInfo)` — the
canonical hash over `(provider, parameters, context)` in that fixed
order, built on the idealised string hash. -/
def computeIdentifier (ci : ClaimInfo) : Nat :=
  (encodeString ci.provider * 1000003 + encodeString ci.parameters) * 1000003
    + encodeString ci.context

/-- Modelled from the spec: the message hash a witness signs over a
claim (the crypto SDK's `createSignDataForClaim`), mixing identifier,
owner, timestamp and epoch id. -/
def signDataHash (identifier owner timestampS epochId : Nat) : Nat :=
  ((identifier * 1000003 + owner) * 1000003 + timestampS) * 1000003 + epochId

/-- Modelled from the spec: the external signature-recovery primitive
`(messageHash, signature) → signerIdentity` (§6 collaborator (b)); a
malformed blob, or one signed over a different message hash, recovers to
no valid identity. -/
def recoverSigner (msgHash : Nat) : Sig → Option Nat
  | .malformed => none
  | .signedBy signer hash => if hash = msgHash then some signer else none

/-- Recover all signer identities, failing if any signature is invalid
or any two signatures recover to the same identity. -/
def recoverAll (msgHash : Nat) : List Sig → Option (List Nat)
  | [] => some []
  | s :: rest =>
    match recoverSigner msgHash s, recoverAll msgHash rest with
    | some a, some l => if a ∈ l then none else some (a :: l)
    | _, _ => none

/-- Unordered-set comparison of two identity lists. -/
def sameSet (a b : List Nat) : Bool :=
  a.all (fun x => decide (x ∈ b)) && b.all (fun x => decide (x ∈ a))

/-- The witness panel a claim is expected to be signed by: the pure
selection run on the claim's epoch with the recomputed identifier. -/
def expectedWitnesses (epoch : Epoch) (proof : Proof) : List Witness :=
  selectWitnessesForClaim epoch (computeIdentifier proof.claimInfo)
    proof.signedClaim.claim.timestampS

/-- The message hash the claim's signatures are checked against. -/
def claimMsgHash (proof : Proof) : Nat :=
  signDataHash (computeIdentifier proof.claimInfo) proof.signedClaim.claim.owner
    proof.signedClaim.claim.timestampS proof.signedClaim.claim.epochId

/-- Modelled from the spec: `verifyClaim(signedClaim)` — recompute the
identifier, fetch the claim's epoch, compute the expected witness list,
then check in order: signatures non-empty (else `NoSignatures`), count
equal to the expected panel (else `SignatureCountMismatch`), every
signature recovering to a valid distinct identity (else
`InvalidSignature`), and the recovered set equal to the expected set as
unordered sets (else `WitnessSetMismatch`).  Success is a pure
validation result (the expected panel) with no state output. -/
def verifyClaim (st : State) (proof : Proof) : Except ReclaimError (List Witness) :=
  if proof.signedClaim.signatures.isEmpty then .error .NoSignatures
  else
    match fetchEpoch st proof.signedClaim.claim.epochId with
    | .error e => .error e
    | .ok epoch =>
      let expected := expectedWitnesses epoch proof
      if proof.signedClaim.signatures.length ≠ expected.length then
        .error .SignatureCountMismatch
      else
        match recoverAll (claimMsgHash proof) proof.signedClaim.signatures with
        | none => .error .InvalidSignature
        | some signers =>
          if sameSet signers (expected.map (fun w => w.addr)) then .ok expected
          else .error .WitnessSetMismatch

/-! ## AnonymityGroupRegistry (§4.3) -/

/-- Modelled from the spec: the Merkle depth used when `merkelizeUser`
creates a group lazily (the spec leaves the value unspecified; the
test-suite uses 20). -/
def lazyGroupDepth : Nat := 20

/-- Provision the provider's group in the external membership system if
it is absent, registering the core's own identity as group admin and
emitting a `GroupCreated` record; otherwise leave the state untouched. -/
def ensureGroup (st : State) (provider : String) (depth : Nat) : State :=
  let gid := calculateGroupIdFromProvider provider
  if ∃ g ∈ st.groups, g.id = gid then st
  else { st with
    groups := st.groups ++ [{ id := gid, provider := provider, depth := depth,
                              admin := st.selfAddr }],
    records := st.records ++ [.groupCreated gid provider] }

/-- Modelled from the spec: `createGroup(provider, depth)` — open to any
caller; fails `GroupAlreadyExists` if the provider's group id is already
present, otherwise provisions the group (admin = the core's own
identity) and records it. -/
def createGroup (st : State) (provider : String) (depth : Nat) :
    Except ReclaimError State :=
  if ∃ g ∈ st.groups, g.id = calculateGroupIdFromProvider provider then
    .error .GroupAlreadyExists
  else .ok (ensureGroup st provider depth)

/-- Modelled from the spec: `merkelizeUser(signedClaim, memberCommitment)`
— run `verifyClaim`; on success derive the group id from the claim's
provider, creating the group as a side effect if absent; fail
`UserAlreadyMerkelized` if `(owner, provider)` is already recorded;
otherwise add the commitment to the group, mark the key recorded and
emit an enrollment record. -/
def merkelizeUser (st : State) (proof : Proof) (memberCommitment : Nat) :
    Except ReclaimError State :=
  match verifyClaim st proof with
  | .error e => .error e
  | .ok _ =>
    let provider := proof.claimInfo.provider
    let owner := proof.signedClaim.claim.owner
    let stg := ensureGroup st provider lazyGroupDepth
    if (owner, provider) ∈ stg.merkelized then .error .UserAlreadyMerkelized
    else .ok { stg with
      merkelized := stg.merkelized ++ [(owner, provider)],
      records := stg.records ++
        [.memberEnrolled (calculateGroupIdFromProvider provider) memberCommitment
          owner provider] }

/-! ## DappRegistry (§4.4) -/

/-- Linear search of the dapp table by dapp id. -/
def findDapp : List Dapp → Nat → Option Dapp
  | [], _ => none
  | d :: rest, i => if d.dappId = i then some d else findDapp rest i

/-- Modelled from the spec: `createDapp(externalNullifier)` — fails
`DappAlreadyExists` if the nullifier is already registered; otherwise
assigns a fresh (never reused) dapp id, stores the mapping, records the
creator and emits a creation record. -/
def createDapp (st : State) (caller externalNullifier : Nat) :
    Except ReclaimError State :=
  if ∃ d ∈ st.dapps, d.externalNullifier = externalNullifier then
    .error .DappAlreadyExists
  else
    let newId := st.dapps.length + 1
    .ok { st with
      dapps := st.dapps ++ [{ dappId := newId,
                              externalNullifier := externalNullifier,
                              creator := caller }],
      records := st.records ++ [.dappCreated newId] }

/-! ## MembershipGate (§4.5) -/

/-- Modelled from the spec: the external zero-knowledge membership
verifier `verifyProof(groupId, root, signal, nullifierHash,
externalNullifier, proof) → bool` (§6 collaborator (a)); its
cryptographic verdict is abstracted as the proof object's `ok` field. -/
def semaphoreVerifyProof (_groupId _merkleTreeRoot _signal _nullifierHash
    _externalNullifier : Nat) (proof : ZkProof) : Bool :=
  proof.ok

/-- Modelled from the spec: `verifyMembership` (the contract's
`verifyMerkelIdentity`) — fails `DappNotCreated` unless the dapp id
exists with the supplied external nullifier; derives the group id from
the provider, failing `GroupNotFound` if no group was ever created for
it; only then delegates to the external membership verifier, emitting a
`ProofVerified` audit record on success and failing `InvalidProof`
otherwise. -/
def verifyMerkelIdentity (st : State) (provider : String)
    (merkleTreeRoot signal nullifierHash externalNullifier dappId : Nat)
    (proof : ZkProof) : Except ReclaimError State :=
  match findDapp st.dapps dappId with
  | none => .error .DappNotCreated
  | some d =>
    if d.externalNullifier ≠ externalNullifier then .error .DappNotCreated
    else
      let gid := calculateGroupIdFromProvider provider
      if ∃ g ∈ st.groups, g.id = gid then
        if semaphoreVerifyProof gid merkleTreeRoot signal nullifierHash
            externalNullifier proof then
          .ok { st with records := st.records ++
            [.proofVerified gid merkleTreeRoot nullifierHash externalNullifier signal] }
        else .error .InvalidProof
      else .error .GroupNotFound

/-! ## Context/identifier parsing (§4.6) -/

/-- Modelled from the spec: `getProviderFromProof` returns the claim
metadata's provider verbatim. -/
def getProviderFromProof (proof : Proof) : String :=
  proof.claimInfo.provider

/-- Modelled from the spec: `getContextAddressFromProof` returns the
first 42 characters of the context (the hex address), failing
`ContextTooShort` if the context is shorter. -/
def getContextAddressFromProof (proof : Proof) : Except ReclaimError String :=
  if proof.claimInfo.context.data.length < 42 then .error .ContextTooShort
  else .ok (String.mk (proof.claimInfo.context.data.take 42))

/-- Modelled from the spec: `getContextMessageFromProof` returns
everything after character 42 of the context. -/
def getContextMessageFromProof (proof : Proof) : String :=
  String.mk (proof.claimInfo.context.data.drop 42)

/-! ## Ledger semantics

Every public operation is applied as one atomic transition (§5): it
either fully commits or fully aborts with the specific error and zero
side effects. -/

/-- The public mutating operations of the core. -/
inductive Op where
  | addEpoch (caller : Nat) (ws : List Witness) (threshold : Nat) (now : Nat)
  | createGroup (provider : String) (depth : Nat)
  | merkelizeUser (proof : Proof) (memberCommitment : Nat)
  | createDapp (caller externalNullifier : Nat)
  | verifyMerkelIdentity (provider : String)
      (merkleTreeRoot signal nullifierHash externalNullifier dappId : Nat)
      (proof : ZkProof)
deriving DecidableEq

/-- Dispatch an operation against the ledger state. -/
def applyOp (st : State) : Op → Except ReclaimError State
  | .addEpoch caller ws threshold now => addEpoch st caller ws threshold now
  | .createGroup provider depth => createGroup st provider depth
  | .merkelizeUser proof memberCommitment => merkelizeUser st proof memberCommitment
  | .createDapp caller externalNullifier => createDapp st caller externalNullifier
  | .verifyMerkelIdentity provider root signal nullifierHash externalNullifier dappId proof =>
      verifyMerkelIdentity st provider root signal nullifierHash externalNullifier
        dappId proof

/-- Ledger-style execution: a failing operation leaves the pre-state in
place and surfaces the error. -/
def runOp (st : State) (op : Op) : State × Option ReclaimError :=
  match applyOp st op with
  | .ok st' => (st', none)
  | .error e => (st, some e)

/-- Reachability of one ledger state from another through successful
operations. -/
inductive Reach : State → State → Prop where
  | refl (st : State) : Reach st st
  | step {st₀ st st' : State} (op : Op) : Reach st₀ st → applyOp st op = .ok st' →
      Reach st₀ st'

/-! ## Structural lemmas about the ledger -/

/-- The epoch table carries sequential ids: the i-th stored epoch has id
`i + 1`. -/
def SeqIds (l : List Epoch) : Prop :=
  ∀ (i : Nat) (h : i < l.length), (l.get ⟨i, h⟩).id = i + 1

/-- Appending the next sequential epoch preserves sequential ids. -/
theorem SeqIds_append {l : List Epoch} {e : Epoch} (hl : SeqIds l)
    (he : e.id = l.length + 1) : SeqIds (l ++ [e]) := by
  intro i h
  rw [List.length_append, List.length_singleton] at h
  by_cases hi : i < l.length
  · have : (l ++ [e]).get ⟨i, by simpa using Nat.lt_of_lt_of_le hi (by simp)⟩
        = l.get ⟨i, hi⟩ := List.get_append i hi
    rw [this]
    exact hl i hi
  · have hieq : i = l.length := by omega
    subst hieq
    have : (l ++ [e]).get ⟨l.length, by simp⟩ = e := by
      rw [List.get_append_right] <;> simp
    rw [this, he]

/-- The last epoch of a table extended by one entry is that entry. -/
theorem lastEpoch_concat : ∀ (l : List Epoch) (e : Epoch), lastEpoch (l ++ [e]) = some e := by
  intro l
  induction l with
  | nil => intro e; rfl
  | cons a rest ih =>
    intro e
    cases rest with
    | nil => rfl
    | cons b rest' => simpa [lastEpoch] using ih e

/-- A non-empty epoch table has a last epoch. -/
theorem lastEpoch_isSome : ∀ (l : List Epoch), l ≠ [] → ∃ e, lastEpoch l = some e := by
  intro l
  induction l with
  | nil => intro h; exact absurd rfl h
  | cons a rest ih =>
    intro _
    cases rest with
    | nil => exact ⟨a, rfl⟩
    | cons b rest' =>
      obtain ⟨e, he⟩ := ih (by simp)
      exact ⟨e, by simpa [lastEpoch] using he⟩

/-- Every member of a sequential-id table has an id between 1 and the
table length. -/
theorem SeqIds_mem_bounds {l : List Epoch} (hl : SeqIds l) {e : Epoch} (he : e ∈ l) :
    1 ≤ e.id ∧ e.id ≤ l.length := by
  obtain ⟨n, hn⟩ := List.mem_iff_get.mp he
  have := hl n.val n.isLt
  have hne : l.get ⟨n.val, n.isLt⟩ = e := by
    simpa using hn
  rw [hne] at this
  omega

/-- If some member of the table carries the requested id, the linear
search finds an epoch with that id. -/
theorem findEpoch_of_mem : ∀ (l : List Epoch) (k : Nat) (e : Epoch), e ∈ l → e.id = k →
    ∃ e', findEpoch l k = some e' ∧ e'.id = k := by
  intro l
  induction l with
  | nil => intro k e he _; exact absurd he (List.not_mem_nil e)
  | cons a rest ih =>
    intro k e he hk
    by_cases ha : a.id = k
    · exact ⟨a, by simp [findEpoch, ha], ha⟩
    · have hmem : e ∈ rest := by
        cases List.mem_cons.mp he with
        | inl h => exact absurd (h ▸ hk) ha
        | inr h => exact h
      obtain ⟨e', he', hid⟩ := ih k e hmem hk
      exact ⟨e', by simp [findEpoch, ha, he'], hid⟩

/-- If no member of the table carries the requested id, the linear
search fails. -/
theorem findEpoch_of_not_mem : ∀ (l : List Epoch) (k : Nat),
    (∀ e ∈ l, e.id ≠ k) → findEpoch l k = none := by
  intro l
  induction l with
  | nil => intro k _; rfl
  | cons a rest ih =>
    intro k h
    have ha : a.id ≠ k := h a (List.mem_cons_self a rest)
    simp only [findEpoch, if_neg ha]
    exact ih k (fun e he => h e (List.mem_cons_of_mem a he))

/-- Lazily provisioning a group touches only the group table and the
record log; any new group is administered by the core itself. -/
theorem ensureGroup_effects (st : State) (provider : String) (depth : Nat) :
    (ensureGroup st provider depth).selfAddr = st.selfAddr ∧
    (ensureGroup st provider depth).operator = st.operator ∧
    (ensureGroup st provider depth).epochs = st.epochs ∧
    (ensureGroup st provider depth).merkelized = st.merkelized ∧
    (ensureGroup st provider depth).dapps = st.dapps ∧
    ∀ g ∈ (ensureGroup st provider depth).groups, g ∈ st.groups ∨ g.admin = st.selfAddr := by
  by_cases hg : ∃ g ∈ st.groups, g.id = calculateGroupIdFromProvider provider
  · have hE : ensureGroup st provider depth = st := by
      simp [ensureGroup, hg]
    rw [hE]
    exact ⟨rfl, rfl, rfl, rfl, rfl, fun g hgm => Or.inl hgm⟩
  · have hE : ensureGroup st provider depth
        = { st with
            groups := st.groups ++
              [{ id := calculateGroupIdFromProvider provider, provider := provider,
                 depth := depth, admin := st.selfAddr }],
            records := st.records ++
              [.groupCreated (calculateGroupIdFromProvider provider) provider] } := by
      simp [ensureGroup, hg]
    rw [hE]
    refine ⟨rfl, rfl, rfl, rfl, rfl, fun g hgm => ?_⟩
    rcases List.mem_append.mp hgm with h | h
    · exact Or.inl h
    · right
      have hgeq : g = { id := calculateGroupIdFromProvider provider, provider := provider,
                        depth := depth, admin := st.selfAddr } := by
        simpa using h
      rw [hgeq]

/-- What one successful operation can do to the ledger: it preserves the
core and operator identities, appends at most one sequential epoch,
never removes a merkelization record, and only adds groups administered
by the core. -/
theorem step_effects {st st' : State} {op : Op} (h : applyOp st op = .ok st') :
    st'.selfAddr = st.selfAddr ∧ st'.operator = st.operator ∧
    (st'.epochs = st.epochs ∨ ∃ ws th now,
      st'.epochs = st.epochs ++ [{ id := st.epochs.length + 1, timestampStart := now,
                                   witnesses := ws, minimumWitnessesForClaimCreation := th }]) ∧
    (∀ k ∈ st.merkelized, k ∈ st'.merkelized) ∧
    (∀ g ∈ st'.groups, g ∈ st.groups ∨ g.admin = st.selfAddr) := by
  cases op with
  | addEpoch caller ws threshold now =>
    simp only [applyOp, addEpoch] at h
    split at h
    · exact absurd h (by simp)
    · split at h
      · exact absurd h (by simp)
      · injection h with h'
        subst h'
        refine ⟨rfl, rfl, Or.inr ⟨ws, threshold, now, rfl⟩, fun k hk => hk,
          fun g hg => Or.inl hg⟩
  | createGroup provider depth =>
    simp only [applyOp, createGroup] at h
    split at h
    · exact absurd h (by simp)
    · injection h with h'
      subst h'
      have he := ensureGroup_effects st provider depth
      exact ⟨he.1, he.2.1, Or.inl he.2.2.1, fun k hk => he.2.2.2.1 ▸ hk,
        he.2.2.2.2.2⟩
  | merkelizeUser proof memberCommitment =>
    simp only [applyOp, merkelizeUser] at h
    cases hv : verifyClaim st proof with
    | error e => rw [hv] at h; exact absurd h (by simp)
    | ok expected =>
      rw [hv] at h
      simp only at h
      split at h
      · exact absurd h (by simp)
      · injection h with h'
        subst h'
        have he := ensureGroup_effects st proof.claimInfo.provider lazyGroupDepth
        refine ⟨he.1, he.2.1, Or.inl he.2.2.1, fun k hk => ?_, he.2.2.2.2.2⟩
        simp only [List.mem_append]
        exact Or.inl (he.2.2.2.1 ▸ hk)
  | createDapp caller externalNullifier =>
    simp only [applyOp, createDapp] at h
    split at h
    · exact absurd h (by simp)
    · injection h with h'
      subst h'
      exact ⟨rfl, rfl, Or.inl rfl, fun k hk => hk, fun g hg => Or.inl hg⟩
  | verifyMerkelIdentity provider root signal nullifierHash externalNullifier dappId proof =>
    simp only [applyOp, verifyMerkelIdentity] at h
    cases hd : findDapp st.dapps dappId with
    | none => rw [hd] at h; exact absurd h (by simp)
    | some d =>
      rw [hd] at h
      simp only at h
      split at h
      · exact absurd h (by simp)
      · split at h
        · split at h
          · injection h with h'
            subst h'
            exact ⟨rfl, rfl, Or.inl rfl, fun k hk => hk, fun g hg => Or.inl hg⟩
          · exact absurd h (by simp)
        · exact absurd h (by simp)

/-- The core's own identity never changes along any execution. -/
theorem reach_selfAddr {st₀ st : State} (h : Reach st₀ st) : st.selfAddr = st₀.selfAddr := by
  induction h with
  | refl => rfl
  | step op _ hap ih => rw [(step_effects hap).1, ih]

/-- Merkelization records are never cleared along any execution. -/
theorem reach_merkelized_mono {st₀ st : State} (h : Reach st₀ st) :
    ∀ k ∈ st₀.merkelized, k ∈ st.merkelized := by
  induction h with
  | refl => exact fun k hk => hk
  | step op _ hap ih => exact fun k hk => (step_effects hap).2.2.2.1 k (ih k hk)

/-- Along any execution that starts with an admin-clean group table,
every group is administered by the starting core identity. -/
theorem reach_groups_admin {st₀ st : State} (h : Reach st₀ st)
    (h₀ : ∀ g ∈ st₀.groups, g.admin = st₀.selfAddr) :
    ∀ g ∈ st.groups, g.admin = st₀.selfAddr := by
  induction h with
  | refl => exact h₀
  | step op hr hap ih =>
    intro g hg
    rcases (step_effects hap).2.2.2.2 g hg with hmem | hadmin
    · exact ih g hmem
    · rw [hadmin]
      exact reach_selfAddr hr

/-- Along any execution from a sequential epoch table whose last entry
id equals its length, both properties persist. -/
theorem reach_epochs {st₀ st : State} (h : Reach st₀ st)
    (h₀ : SeqIds st₀.epochs ∧ ∀ e, lastEpoch st₀.epochs = some e → e.id = st₀.epochs.length) :
    SeqIds st.epochs ∧ ∀ e, lastEpoch st.epochs = some e → e.id = st.epochs.length := by
  induction h with
  | refl => exact h₀
  | step op _ hap ih =>
    rcases (step_effects hap).2.2.1 with heq | ⟨ws, th, now, heq⟩
    · rw [heq]; exact ih
    · rw [heq]
      constructor
      · exact SeqIds_append ih.1 rfl
      · intro e he
        rw [lastEpoch_concat] at he
        injection he with he'
        subst he'
        simp

/-- A successful dapp-table search returns a member of the table
carrying the requested id. -/
theorem findDapp_some : ∀ (l : List Dapp) (i : Nat) (d : Dapp),
    findDapp l i = some d → d ∈ l ∧ d.dappId = i := by
  intro l
  induction l with
  | nil => intro i d h; exact Option.noConfusion h
  | cons a rest ih =>
    intro i d h
    by_cases ha : a.dappId = i
    · simp only [findDapp, if_pos ha] at h
      injection h with h'
      subst h'
      exact ⟨List.mem_cons_self a rest, ha⟩
    · simp only [findDapp, if_neg ha] at h
      obtain ⟨hmem, hid⟩ := ih i d h
      exact ⟨List.mem_cons_of_mem a hmem, hid⟩

/-! ## Concrete fixtures used by the claim witnesses -/

/-- A one-witness fixture panel member. -/
def wFix : Witness := { addr := 10, host := "wa" }

/-- A one-witness, threshold-one fixture epoch. -/
def epochFix : Epoch :=
  { id := 1, timestampStart := 5, witnesses := [wFix],
    minimumWitnessesForClaimCreation := 1 }

/-- A fixture ledger holding only `epochFix` (the state reached from the
empty ledger by one `addEpoch`). -/
def stFix : State :=
  { initState 0 9 with epochs := [epochFix], records := [.epochAdded 1] }

/-- Fixture claim metadata. -/
def ciFix : ClaimInfo :=
  { provider := "prov", parameters := "params",
    context := "0x1111111111111111111111111111111111111111hello" }

/-- The message hash of the fixture claim. -/
def msgFix : Nat := signDataHash (computeIdentifier ciFix) 5 100 1

/-- A fixture proof correctly signed by the fixture witness. -/
def proofFix : Proof :=
  { claimInfo := ciFix,
    signedClaim := { claim := { identifier := 0, owner := 5, timestampS := 100, epochId := 1 },
                     signatures := [.signedBy 10 msgFix] } }

/-- The fixture proof with its signature list emptied. -/
def proofFixNoSig : Proof :=
  { claimInfo := ciFix,
    signedClaim := { claim := { identifier := 0, owner := 5, timestampS := 100, epochId := 1 },
                     signatures := [] } }

/-- The ledger after the fixture user is merkelized. -/
def stFixM : State :=
  match merkelizeUser stFix proofFix 111 with
  | .ok st => st
  | .error _ => stFix

/-! ## Claims -/

/-- C6: `groupIdFromProvider` (the readme's `calculateGroupIdFromProvider`)
is a deterministic function of the provider string — equal providers map
to the same group id and, in the idealised collision-free hash model,
distinct providers map to distinct group ids; in particular the group
ids of "google-account", "github-cred" and "account-google" are pairwise
distinct. -/
theorem groupId_deterministic_and_distinct :
    (∀ p₁ p₂ : String, p₁ = p₂ →
      calculateGroupIdFromProvider p₁ = calculateGroupIdFromProvider p₂) ∧
    (∀ p₁ p₂ : String, p₁ ≠ p₂ →
      calculateGroupIdFromProvider p₁ ≠ calculateGroupIdFromProvider p₂) ∧
    (calculateGroupIdFromProvider "google-account"
        ≠ calculateGroupIdFromProvider "github-cred" ∧
      calculateGroupIdFromProvider "google-account"
        ≠ calculateGroupIdFromProvider "account-google" ∧
      calculateGroupIdFromProvider "github-cred"
        ≠ calculateGroupIdFromProvider "account-google") := by
  have hinj : ∀ p₁ p₂ : String, p₁ ≠ p₂ →
      calculateGroupIdFromProvider p₁ ≠ calculateGroupIdFromProvider p₂ := by
    intro p₁ p₂ hne h
    exact hne (encodeString_inj h)
  refine ⟨fun p₁ p₂ h => by rw [h], hinj, ?_, ?_, ?_⟩
  · exact hinj _ _ (by decide)
  · exact hinj _ _ (by decide)
  · exact hinj _ _ (by decide)

/-- Witness for C6 at the spec's concrete provider strings. -/
theorem groupId_deterministic_and_distinct_witness :
    ("google-account" : String) ≠ "github-cred" ∧
    calculateGroupIdFromProvider "google-account"
      ≠ calculateGroupIdFromProvider "github-cred" :=
  ⟨by decide,
   groupId_deterministic_and_distinct.2.1 "google-account" "github-cred" (by decide)⟩

/-- C9: the three proof accessors are pure: the provider is returned
verbatim; when the context has at least 42 characters the address
accessor returns exactly its first 42 characters and the message
accessor exactly the remainder from character index 42 (the two parts
reassemble to the full context); when the context is shorter than 42
characters the address accessor fails `ContextTooShort`. -/
theorem proof_accessors_spec :
    ∀ p : Proof,
      getProviderFromProof p = p.claimInfo.provider ∧
      (42 ≤ p.claimInfo.context.data.length →
        ∃ address, getContextAddressFromProof p = .ok address ∧
          address.data = p.claimInfo.context.data.take 42 ∧
          address.data.length = 42 ∧
          (getContextMessageFromProof p).data = p.claimInfo.context.data.drop 42 ∧
          address.data ++ (getContextMessageFromProof p).data = p.claimInfo.context.data) ∧
      (p.claimInfo.context.data.length < 42 →
        getContextAddressFromProof p = .error .ContextTooShort) := by
  intro p
  refine ⟨rfl, fun h => ?_, fun h => ?_⟩
  · refine ⟨String.mk (p.claimInfo.context.data.take 42), ?_, rfl, ?_, rfl, ?_⟩
    · simp only [getContextAddressFromProof, if_neg (Nat.not_lt.mpr h)]
    · simp only [List.length_take]
      omega
    · exact List.take_append_drop 42 _
  · simp only [getContextAddressFromProof, if_pos h]

/-- Witness for C9 at the fixture proof, whose context has 47
characters. -/
theorem proof_accessors_spec_witness :
    42 ≤ proofFix.claimInfo.context.data.length ∧
    (∃ address, getContextAddressFromProof proofFix = .ok address ∧
      address.data = proofFix.claimInfo.context.data.take 42 ∧
      address.data.length = 42 ∧
      (getContextMessageFromProof proofFix).data
        = proofFix.claimInfo.context.data.drop 42 ∧
      address.data ++ (getContextMessageFromProof proofFix).data
        = proofFix.claimInfo.context.data) :=
  ⟨by decide, (proof_accessors_spec proofFix).2.1 (by decide)⟩

/-- C1: witness selection is a pure function of the epoch snapshot,
identifier and timestamp; it agrees with the independent reference
implementation (`fetchWitnessListForClaim`) on every input; whenever the
threshold fits the panel its result has length exactly the threshold;
and the exposed `fetchWitnessesForClaim` query is the same selection run
on the fetched epoch. -/
theorem selectWitnesses_pure_and_matches_reference :
    (∀ (e₁ e₂ : Epoch) (i₁ i₂ t₁ t₂ : Nat), e₁ = e₂ → i₁ = i₂ → t₁ = t₂ →
      selectWitnessesForClaim e₁ i₁ t₁ = selectWitnessesForClaim e₂ i₂ t₂) ∧
    (∀ (e : Epoch) (identifier timestampS : Nat),
      fetchWitnessListForClaim e identifier timestampS
        = selectWitnessesForClaim e identifier timestampS) ∧
    (∀ (e : Epoch) (identifier timestampS : Nat),
      e.minimumWitnessesForClaimCreation ≤ e.witnesses.length →
      (selectWitnessesForClaim e identifier timestampS).length
        = e.minimumWitnessesForClaimCreation) ∧
    (∀ (st : State) (epochId identifier timestampS : Nat) (e : Epoch),
      fetchEpoch st epochId = .ok e →
      fetchWitnessesForClaim st epochId identifier timestampS
        = .ok (selectWitnessesForClaim e identifier timestampS)) := by
  refine ⟨?_, fetchWitnessListForClaim_eq, ?_, ?_⟩
  · intro e₁ e₂ i₁ i₂ t₁ t₂ he hi ht
    rw [he, hi, ht]
  · intro e identifier timestampS h
    exact selectLoop_length _ _ 0 _ h
  · intro st epochId identifier timestampS e h
    simp [fetchWitnessesForClaim, h]

/-- A fifteen-witness fixture panel with threshold five — the spec's
cross-implementation test scenery. -/
def epoch15 : Epoch :=
  { id := 3, timestampStart := 0,
    witnesses :=
      [{ addr := 1, host := "h1" }, { addr := 2, host := "h2" },
       { addr := 3, host := "h3" }, { addr := 4, host := "h4" },
       { addr := 5, host := "h5" }, { addr := 6, host := "h6" },
       { addr := 7, host := "h7" }, { addr := 8, host := "h8" },
       { addr := 9, host := "h9" }, { addr := 10, host := "h10" },
       { addr := 11, host := "h11" }, { addr := 12, host := "h12" },
       { addr := 13, host := "h13" }, { addr := 14, host := "h14" },
       { addr := 15, host := "h15" }],
    minimumWitnessesForClaimCreation := 5 }

/-- Witness for C1: on the fifteen-witness, threshold-five epoch both
implementations agree and select exactly five witnesses. -/
theorem selectWitnesses_pure_and_matches_reference_witness :
    epoch15.minimumWitnessesForClaimCreation ≤ epoch15.witnesses.length ∧
    (selectWitnessesForClaim epoch15 987654321 1700000000).length
      = epoch15.minimumWitnessesForClaimCreation ∧
    fetchWitnessListForClaim epoch15 987654321 1700000000
      = selectWitnessesForClaim epoch15 987654321 1700000000 :=
  ⟨by decide,
   selectWitnesses_pure_and_matches_reference.2.2.1 epoch15 987654321 1700000000 (by decide),
   selectWitnesses_pure_and_matches_reference.2.1 epoch15 987654321 1700000000⟩

/-- C5: along any execution from the empty ledger, fetching an added
epoch by its id returns an epoch with that id; on a non-empty table,
`fetchEpoch 0` returns the most recently added epoch, which carries the
highest id; and any id that is neither 0 nor an existing epoch id fails
`EpochNotFound`. -/
theorem fetchEpoch_spec :
    ∀ (operator selfAddr : Nat) (st : State),
      Reach (initState operator selfAddr) st →
      (∀ e ∈ st.epochs, ∃ e', fetchEpoch st e.id = .ok e' ∧ e'.id = e.id) ∧
      (st.epochs ≠ [] → ∃ e, fetchEpoch st 0 = .ok e ∧ e.id = st.epochs.length ∧
        ∀ e' ∈ st.epochs, e'.id ≤ e.id) ∧
      (∀ epochId, epochId ≠ 0 → (∀ e ∈ st.epochs, e.id ≠ epochId) →
        fetchEpoch st epochId = .error .EpochNotFound) := by
  intro operator selfAddr st hreach
  have hinv := reach_epochs hreach
    ⟨fun i h => absurd h (by simp [initState]),
     fun e he => by simp [initState, lastEpoch] at he⟩
  refine ⟨?_, ?_, ?_⟩
  · intro e he
    have hbounds := SeqIds_mem_bounds hinv.1 he
    have hid0 : e.id ≠ 0 := by omega
    obtain ⟨e', hfind, hide⟩ := findEpoch_of_mem st.epochs e.id e he rfl
    exact ⟨e', by simp [fetchEpoch, hid0, hfind], hide⟩
  · intro hne
    obtain ⟨e, he⟩ := lastEpoch_isSome st.epochs hne
    refine ⟨e, by simp [fetchEpoch, he], hinv.2 e he, ?_⟩
    intro e' he'
    have := SeqIds_mem_bounds hinv.1 he'
    have := hinv.2 e he
    omega
  · intro epochId h0 hnone
    simp [fetchEpoch, h0, findEpoch_of_not_mem st.epochs epochId hnone]

/-- Witness for C5 on the ledger reached by adding the fixture epoch. -/
theorem fetchEpoch_spec_witness :
    epochFix ∈ stFix.epochs ∧
    (∃ e', fetchEpoch stFix epochFix.id = .ok e' ∧ e'.id = epochFix.id) ∧
    (∃ e, fetchEpoch stFix 0 = .ok e ∧ e.id = stFix.epochs.length ∧
      ∀ e' ∈ stFix.epochs, e'.id ≤ e.id) :=
  have hreach : Reach (initState 0 9) stFix :=
    Reach.step (Op.addEpoch 0 [wFix] 1 5) (Reach.refl _) rfl
  ⟨by decide,
   (fetchEpoch_spec 0 9 stFix hreach).1 epochFix (by decide),
   (fetchEpoch_spec 0 9 stFix hreach).2.1 (by decide)⟩

/-- C2: `verifyClaim` (as invoked by `merkelizeUser`, which forwards its
error verbatim) evaluates its precondition checks in the spec's fixed
order: an empty signature list fails `NoSignatures`; otherwise, with the
claim's epoch fetched, a signature count different from the expected
panel fails `SignatureCountMismatch`; otherwise a signature that does
not recover to a valid, distinct signer fails `InvalidSignature`;
otherwise a recovered set different from the expected set (as unordered
sets) fails `WitnessSetMismatch`; otherwise verification succeeds as a
pure result with no state output. -/
theorem verifyClaim_check_order :
    ∀ (st : State) (p : Proof),
      (p.signedClaim.signatures = [] → verifyClaim st p = .error .NoSignatures) ∧
      (∀ epoch, fetchEpoch st p.signedClaim.claim.epochId = .ok epoch →
        p.signedClaim.signatures ≠ [] →
        (p.signedClaim.signatures.length ≠ (expectedWitnesses epoch p).length →
          verifyClaim st p = .error .SignatureCountMismatch) ∧
        (p.signedClaim.signatures.length = (expectedWitnesses epoch p).length →
          recoverAll (claimMsgHash p) p.signedClaim.signatures = none →
          verifyClaim st p = .error .InvalidSignature) ∧
        (∀ signers, p.signedClaim.signatures.length = (expectedWitnesses epoch p).length →
          recoverAll (claimMsgHash p) p.signedClaim.signatures = some signers →
          (sameSet signers ((expectedWitnesses epoch p).map (fun w => w.addr)) = false →
            verifyClaim st p = .error .WitnessSetMismatch) ∧
          (sameSet signers ((expectedWitnesses epoch p).map (fun w => w.addr)) = true →
            verifyClaim st p = .ok (expectedWitnesses epoch p)))) ∧
      (∀ (e : ReclaimError) (c : Nat), verifyClaim st p = .error e →
        merkelizeUser st p c = .error e) := by
  intro st p
  refine ⟨?_, ?_, ?_⟩
  · intro h
    simp [verifyClaim, h]
  · intro epoch hep hne
    have hie : p.signedClaim.signatures.isEmpty = false := by
      cases hs : p.signedClaim.signatures with
      | nil => exact absurd hs hne
      | cons a l => simp [hs]
    refine ⟨?_, ?_, ?_⟩
    · intro hlen
      simp [verifyClaim, hie, hep, hlen]
    · intro hlen hrec
      simp [verifyClaim, hie, hep, hlen, hrec]
    · intro signers hlen hrec
      constructor
      · intro hset
        simp [verifyClaim, hie, hep, hlen, hrec, hset]
      · intro hset
        simp [verifyClaim, hie, hep, hlen, hrec, hset]
  · intro e c hv
    simp [merkelizeUser, hv]

/-- Witness for C2 on the fixture ledger: the correctly signed fixture
proof verifies to the expected panel, and the same proof with its
signatures emptied fails `NoSignatures`, also through `merkelizeUser`. -/
theorem verifyClaim_check_order_witness :
    verifyClaim stFix proofFixNoSig = .error .NoSignatures ∧
    verifyClaim stFix proofFix = .ok (expectedWitnesses epochFix proofFix) ∧
    merkelizeUser stFix proofFixNoSig 7 = .error .NoSignatures :=
  ⟨(verifyClaim_check_order stFix proofFixNoSig).1 rfl,
   (((verifyClaim_check_order stFix proofFix).2.1 epochFix rfl (by decide)).2.2
      [10] rfl rfl).2 rfl,
   (verifyClaim_check_order stFix proofFixNoSig).2.2 .NoSignatures 7
     ((verifyClaim_check_order stFix proofFixNoSig).1 rfl)⟩

/-- C4: every failing operation leaves the entire ledger — epoch table,
group table, merkelization-record set, dapp table and record log —
exactly as it was; in particular a `merkelizeUser` call whose signature
validation fails returns the pre-state verbatim, so it performs no group
creation, no member addition and no enrollment-record write. -/
theorem failed_ops_leave_state_unchanged :
    (∀ (st : State) (op : Op) (st' : State) (e : ReclaimError),
      runOp st op = (st', some e) →
      st' = st ∧ st'.epochs = st.epochs ∧ st'.groups = st.groups ∧
      st'.merkelized = st.merkelized ∧ st'.dapps = st.dapps ∧
      st'.records = st.records) ∧
    (∀ (st : State) (p : Proof) (c : Nat) (e : ReclaimError),
      verifyClaim st p = .error e →
      runOp st (.merkelizeUser p c) = (st, some e)) := by
  constructor
  · intro st op st' e h
    unfold runOp at h
    cases hap : applyOp st op with
    | ok s =>
      rw [hap] at h
      exact absurd h (by simp)
    | error e' =>
      rw [hap] at h
      cases h
      exact ⟨rfl, rfl, rfl, rfl, rfl, rfl⟩
  · intro st p c e hv
    simp [runOp, applyOp, merkelizeUser, hv]

/-- Witness for C4: the fixture `merkelizeUser` call without signatures
fails and returns the fixture ledger untouched. -/
theorem failed_ops_leave_state_unchanged_witness :
    verifyClaim stFix proofFixNoSig = .error .NoSignatures ∧
    runOp stFix (Op.merkelizeUser proofFixNoSig 7)
      = (stFix, some ReclaimError.NoSignatures) :=
  ⟨rfl, failed_ops_leave_state_unchanged.2 stFix proofFixNoSig 7 .NoSignatures rfl⟩

/-- C7: `verifyMembership` (`verifyMerkelIdentity`) fails `DappNotCreated`
— for every supplied zero-knowledge proof alike, i.e. before any
delegation to the external proof system — whenever the supplied dapp id
is unregistered or its stored external nullifier differs from the
supplied one; and when the dapp check passes but no group was ever
created for the supplied provider it fails `GroupNotFound`. -/
theorem verifyMerkelIdentity_preconditions :
    ∀ (st : State) (provider : String)
      (merkleTreeRoot signal nullifierHash externalNullifier dappId : Nat)
      (zkp : ZkProof),
      ((∀ d ∈ st.dapps, d.dappId = dappId → d.externalNullifier ≠ externalNullifier) →
        verifyMerkelIdentity st provider merkleTreeRoot signal nullifierHash
          externalNullifier dappId zkp = .error .DappNotCreated) ∧
      (∀ d, findDapp st.dapps dappId = some d →
        d.externalNullifier = externalNullifier →
        (∀ g ∈ st.groups, g.id ≠ calculateGroupIdFromProvider provider) →
        verifyMerkelIdentity st provider merkleTreeRoot signal nullifierHash
          externalNullifier dappId zkp = .error .GroupNotFound) := by
  intro st provider merkleTreeRoot signal nullifierHash externalNullifier dappId zkp
  constructor
  · intro hmiss
    cases hd : findDapp st.dapps dappId with
    | none => simp [verifyMerkelIdentity, hd]
    | some d =>
      obtain ⟨hmem, hid⟩ := findDapp_some st.dapps dappId d hd
      have hne := hmiss d hmem hid
      simp [verifyMerkelIdentity, hd, hne]
  · intro d hd hen hg
    have hnex : ¬ ∃ g ∈ st.groups, g.id = calculateGroupIdFromProvider provider := by
      rintro ⟨g, hgm, hgid⟩
      exact hg g hgm hgid
    simp [verifyMerkelIdentity, hd, hen, hnex]

/-- A fixture registered dapp. -/
def dappFix : Dapp := { dappId := 1, externalNullifier := 55, creator := 3 }

/-- A fixture ledger holding only `dappFix`. -/
def stDapp : State := { initState 0 9 with dapps := [dappFix] }

/-- Witness for C7: with no dapp registered the gate fails
`DappNotCreated`; with the dapp registered but no group for the provider
it fails `GroupNotFound`. -/
theorem verifyMerkelIdentity_preconditions_witness :
    verifyMerkelIdentity (initState 0 9) "prov" 1 2 3 55 1 { ok := true }
      = .error .DappNotCreated ∧
    findDapp stDapp.dapps 1 = some dappFix ∧
    verifyMerkelIdentity stDapp "prov" 1 2 3 55 1 { ok := true }
      = .error .GroupNotFound :=
  ⟨(verifyMerkelIdentity_preconditions (initState 0 9) "prov" 1 2 3 55 1
      { ok := true }).1 (by decide),
   rfl,
   (verifyMerkelIdentity_preconditions stDapp "prov" 1 2 3 55 1
      { ok := true }).2 dappFix rfl rfl (by decide)⟩

/-- C8: when claim verification succeeds and no group exists yet for the
claim's provider, `merkelizeUser` succeeds in the same call, creating
the provider's group as a side effect and emitting its `GroupCreated`
record before the enrollment record — a prior explicit `createGroup` is
not a precondition of enrollment. -/
theorem merkelizeUser_creates_group_lazily :
    ∀ (st : State) (p : Proof) (c : Nat) (expected : List Witness),
      verifyClaim st p = .ok expected →
      (∀ g ∈ st.groups, g.id ≠ calculateGroupIdFromProvider p.claimInfo.provider) →
      (p.signedClaim.claim.owner, p.claimInfo.provider) ∉ st.merkelized →
      ∃ st', merkelizeUser st p c = .ok st' ∧
        (∃ g ∈ st'.groups,
          g.id = calculateGroupIdFromProvider p.claimInfo.provider ∧
          g.provider = p.claimInfo.provider ∧ g.admin = st.selfAddr) ∧
        st'.records = st.records ++
          [.groupCreated (calculateGroupIdFromProvider p.claimInfo.provider)
            p.claimInfo.provider,
           .memberEnrolled (calculateGroupIdFromProvider p.claimInfo.provider) c
            p.signedClaim.claim.owner p.claimInfo.provider] := by
  intro st p c expected hv hg hnm
  have hnex : ¬ ∃ g ∈ st.groups, g.id = calculateGroupIdFromProvider p.claimInfo.provider := by
    rintro ⟨g, hgm, hgid⟩
    exact hg g hgm hgid
  have hE : ensureGroup st p.claimInfo.provider lazyGroupDepth
      = { st with
          groups := st.groups ++
            [{ id := calculateGroupIdFromProvider p.claimInfo.provider,
               provider := p.claimInfo.provider, depth := lazyGroupDepth,
               admin := st.selfAddr }],
          records := st.records ++
            [.groupCreated (calculateGroupIdFromProvider p.claimInfo.provider)
              p.claimInfo.provider] } := by
    simp [ensureGroup, hnex]
  refine Exists.intro
    { st with
      groups := st.groups ++
        [{ id := calculateGroupIdFromProvider p.claimInfo.provider,
           provider := p.claimInfo.provider, depth := lazyGroupDepth,
           admin := st.selfAddr }],
      merkelized := st.merkelized ++
        [(p.signedClaim.claim.owner, p.claimInfo.provider)],
      records := st.records ++
        [.groupCreated (calculateGroupIdFromProvider p.claimInfo.provider)
          p.claimInfo.provider,
         .memberEnrolled (calculateGroupIdFromProvider p.claimInfo.provider) c
          p.signedClaim.claim.owner p.claimInfo.provider] } ⟨?_, ?_, ?_⟩
  · simp [merkelizeUser, hv, hE, hnm, List.append_assoc]
  · refine ⟨{ id := calculateGroupIdFromProvider p.claimInfo.provider,
              provider := p.claimInfo.provider, depth := lazyGroupDepth,
              admin := st.selfAddr }, ?_, rfl, rfl, rfl⟩
    simp
  · rfl

/-- Witness for C8: the fixture proof merkelizes against a ledger with
no groups, creating the provider's group and both records in one call. -/
theorem merkelizeUser_creates_group_lazily_witness :
    verifyClaim stFix proofFix = .ok (expectedWitnesses epochFix proofFix) ∧
    (∃ st', merkelizeUser stFix proofFix 111 = .ok st' ∧
      (∃ g ∈ st'.groups,
        g.id = calculateGroupIdFromProvider proofFix.claimInfo.provider ∧
        g.provider = proofFix.claimInfo.provider ∧ g.admin = stFix.selfAddr) ∧
      st'.records = stFix.records ++
        [.groupCreated (calculateGroupIdFromProvider proofFix.claimInfo.provider)
          proofFix.claimInfo.provider,
         .memberEnrolled (calculateGroupIdFromProvider proofFix.claimInfo.provider) 111
          proofFix.signedClaim.claim.owner proofFix.claimInfo.provider]) :=
  ⟨rfl,
   merkelizeUser_creates_group_lazily stFix proofFix 111
     (expectedWitnesses epochFix proofFix) rfl (by decide) (by decide)⟩

/-- C10: along any execution from the empty ledger, every anonymity
group — provisioned explicitly via `createGroup` or lazily via
`merkelizeUser` — records the core contract's own identity as its admin,
never any other caller. -/
theorem group_admin_is_core :
    ∀ (operator selfAddr : Nat) (st : State),
      Reach (initState operator selfAddr) st →
      ∀ g ∈ st.groups, g.admin = selfAddr ∧
        ∀ caller, caller ≠ selfAddr → g.admin ≠ caller := by
  intro operator selfAddr st h g hg
  have hall := reach_groups_admin h (fun g hgm => absurd hgm (by simp [initState]))
  have hadmin : g.admin = selfAddr := hall g hg
  exact ⟨hadmin, fun caller hc heq => hc (by rw [← heq, hadmin])⟩

/-- The group id of the fixture provider. -/
def gidProv : Nat := calculateGroupIdFromProvider "prov"

/-- The fixture group as provisioned by the core (admin = the core's
identity 9). -/
def gFix : Group := { id := gidProv, provider := "prov", depth := 18, admin := 9 }

/-- The ledger reached from the empty ledger by one `createGroup`. -/
def stGroup : State :=
  { initState 0 9 with
      groups := [gFix], records := [.groupCreated gidProv "prov"] }

/-- Witness for C10 on the ledger reached by one `createGroup`: the
recorded admin is the core identity 9, not the caller. -/
theorem group_admin_is_core_witness :
    gFix ∈ stGroup.groups ∧ gFix.admin = 9 ∧
    ∀ caller, caller ≠ 9 → gFix.admin ≠ caller :=
  have hreach : Reach (initState 0 9) stGroup :=
    Reach.step (Op.createGroup "prov" 18) (Reach.refl _) rfl
  have hmem : gFix ∈ stGroup.groups := List.mem_singleton.mpr rfl
  ⟨hmem, (group_admin_is_core 0 9 stGroup hreach gFix hmem).1,
   (group_admin_is_core 0 9 stGroup hreach gFix hmem).2⟩

/-- C3 (amended): once `merkelizeUser` succeeds for a claim with owner
`o` and provider `p`, the `(o, p)` enrollment record is present in every
later reachable state — no operation clears it — and every later
`merkelizeUser` call whose claim has the same owner and provider fails,
regardless of the commitment supplied; when that later call's claim
verification succeeds, it fails exactly `UserAlreadyMerkelized`.  (A
later call whose claim verification itself fails surfaces that earlier
error instead, because `merkelizeUser` runs `verifyClaim` first.) -/
theorem merkelized_key_permanent :
    ∀ (st st' : State) (p : Proof) (c₁ : Nat),
      merkelizeUser st p c₁ = .ok st' →
      ∀ st'', Reach st' st'' →
        ((p.signedClaim.claim.owner, p.claimInfo.provider) ∈ st''.merkelized) ∧
        ∀ (p₂ : Proof) (c₂ : Nat),
          p₂.signedClaim.claim.owner = p.signedClaim.claim.owner →
          p₂.claimInfo.provider = p.claimInfo.provider →
          (∀ s₃, merkelizeUser st'' p₂ c₂ ≠ .ok s₃) ∧
          (∀ expected, verifyClaim st'' p₂ = .ok expected →
            merkelizeUser st'' p₂ c₂ = .error .UserAlreadyMerkelized) := by
  intro st st' p c₁ h st'' hreach
  have hkey : (p.signedClaim.claim.owner, p.claimInfo.provider) ∈ st'.merkelized := by
    unfold merkelizeUser at h
    cases hv : verifyClaim st p with
    | error e =>
      rw [hv] at h
      exact absurd h (by simp)
    | ok l =>
      rw [hv] at h
      simp only at h
      split at h
      · exact absurd h (by simp)
      · injection h with h'
        subst h'
        simp
  have hkey'' := reach_merkelized_mono hreach _ hkey
  refine ⟨hkey'', ?_⟩
  intro p₂ c₂ ho hp
  have hkmem : (p₂.signedClaim.claim.owner, p₂.claimInfo.provider) ∈ st''.merkelized := by
    rw [ho, hp]
    exact hkey''
  have hEm : (ensureGroup st'' p₂.claimInfo.provider lazyGroupDepth).merkelized
      = st''.merkelized :=
    (ensureGroup_effects st'' p₂.claimInfo.provider lazyGroupDepth).2.2.2.1
  constructor
  · intro s₃ hok
    unfold merkelizeUser at hok
    cases hv : verifyClaim st'' p₂ with
    | error e =>
      rw [hv] at hok
      exact absurd hok (by simp)
    | ok l =>
      rw [hv] at hok
      simp only at hok
      rw [if_pos (by rw [hEm]; exact hkmem)] at hok
      exact absurd hok (by simp)
  · intro expected hv
    unfold merkelizeUser
    rw [hv]
    simp only
    rw [if_pos (by rw [hEm]; exact hkmem)]

/-- Witness for C3 (amended) on the fixture ledger: after the fixture
user is merkelized, the record is present and a repeat call with a
correctly signed claim for the same owner and provider can never
succeed. -/
theorem merkelized_key_permanent_witness :
    merkelizeUser stFix proofFix 111 = .ok stFixM ∧
    ((proofFix.signedClaim.claim.owner, proofFix.claimInfo.provider)
      ∈ stFixM.merkelized) ∧
    (∀ s₃, merkelizeUser stFixM proofFix 222 ≠ .ok s₃) :=
  ⟨rfl,
   (merkelized_key_permanent stFix stFixM proofFix 111 rfl stFixM (Reach.refl _)).1,
   ((merkelized_key_permanent stFix stFixM proofFix 111 rfl stFixM
      (Reach.refl _)).2 proofFix 222 rfl rfl).1⟩

/-- Counterexample to C3 as literally stated: after the fixture user is
successfully merkelized, a later `merkelizeUser` call whose claim has
the same owner and provider but an empty signature list fails
`NoSignatures`, not `UserAlreadyMerkelized` — claim verification runs
before the enrollment-record check. -/
theorem merkelized_second_call_error_differs :
    merkelizeUser stFix proofFix 111 = .ok stFixM ∧
    proofFixNoSig.signedClaim.claim.owner = proofFix.signedClaim.claim.owner ∧
    proofFixNoSig.claimInfo.provider = proofFix.claimInfo.provider ∧
    merkelizeUser stFixM proofFixNoSig 222 = .error .NoSignatures ∧
    ReclaimError.NoSignatures ≠ ReclaimError.UserAlreadyMerkelized :=
  ⟨rfl, rfl, rfl, rfl, by decide⟩

end Reclaim
